import Mathlib

/-!
Shallow embedding of `src/pylib/storage/cache.py` (classes `AbsCache`,
`FileCache`, `MemoryCache`, `HybridCache`) and the parts of
`src/pylib/storage/io.py` (class `IO`) they call.

Modelling conventions:
* The process clock `int(time())` is passed explicitly as a `now : Int`
  argument to every operation that calls `AbsCache.now()` in the source.
* Python exceptions are modelled with `Except PyError`: an `assert` failure,
  an uncaught `KeyError`, the `ValueError` raised by the `IO` loaders, and
  the `TypeError` Python raises when a call passes a keyword argument the
  callee does not accept.
* A cached record (a Python `dict` value stored in a cache) is modelled as a
  structure carrying the reserved write-timestamp field `cache_time`
  (`AbsCache.key_cache`) plus its non-reserved fields.  Such a record is a
  non-empty Python dict, hence truthy.
* A cache's backing `dict[str, dict]` is modelled as an insertion-ordered
  association list; `dict.get`, item assignment and `del` are translated
  below as `dget`, `dset`, `ddel`.
* The backing file of a `HybridCache` is modelled as `Option Dict`: `none`
  when the path is absent, `some d` when the file holds the serialization of
  `d`.  The `RLock`s in the source only serialize access and are the
  identity in this single-threaded embedding.
-/

namespace PyLibCache

/-- Python runtime errors that the embedded code can raise. -/
inductive PyError where
  | assertError
  | keyError
  | valueError
  | typeError
deriving DecidableEq, Repr

/-- A cached record: the reserved field `cache_time` (the literal string
`"cache_time"`, `AbsCache.key_cache` in the source) together with the
record's non-reserved fields, modelled as a list of string key/value pairs. -/
structure Record where
  cache_time : Int
  data : List (String × String)
deriving DecidableEq, Repr

/-- A Python `dict[str, dict]` as an insertion-ordered association list. -/
abbrev Dict := List (String × Record)

/-- `m.get(key)` on a Python dict (keyed lookup, `None`/default when absent). -/
def dget : Dict → String → Option Record
  | [], _ => none
  | (k', v) :: rest, k => if k' = k then some v else dget rest k

/-- `m[key] = value` on a Python dict: replace in place when the key exists,
append otherwise. -/
def dset : Dict → String → Record → Dict
  | [], k, v => [(k, v)]
  | (k', v') :: rest, k, v =>
      if k' = k then (k, v) :: rest else (k', v') :: dset rest k v

/-- `del m[key]` wrapped as in `MemoryCache._delete`: the resulting dict and
the number of removed entries (`1` when the key was present, else `0`,
the `KeyError` being caught). -/
def ddel : Dict → String → Dict × Nat
  | [], _ => ([], 0)
  | (k', v) :: rest, k =>
      if k' = k then (rest, 1)
      else
        let r := ddel rest k
        ((k', v) :: r.1, r.2)

namespace AbsCache

/-- `AbsCache.ts_expire(seconds)`: `assert seconds >= 0; return now - seconds`
(cache.py lines 46-50).  The failed assertion is `PyError.assertError`. -/
def ts_expire (now seconds : Int) : Except PyError Int :=
  if 0 ≤ seconds then .ok (now - seconds) else .error .assertError

/-- `AbsCache.is_expired(item, seconds)`: `item[cls.key_cache] <= ts_expire(seconds)`
(cache.py lines 52-56). -/
def is_expired (now : Int) (item : Record) (seconds : Int) : Except PyError Bool :=
  (ts_expire now seconds).map (fun expired => decide (item.cache_time ≤ expired))

end AbsCache

/-- The state of a `MemoryCache`: the TTL `_seconds` and the backing dict
`_cache` (cache.py lines 176-187; the `_lock` field is not modelled). -/
structure MemoryCache where
  seconds : Int
  cache : Dict
deriving DecidableEq, Repr

namespace MemoryCache

/-- `MemoryCache._set` (cache.py lines 213-216): stamp
`value[key_cache] = now()` — overwriting any caller-supplied value — then
`self._cache[key] = value`. -/
def set (now : Int) (st : MemoryCache) (k : String) (v : Record) : MemoryCache :=
  { st with cache := dset st.cache k { v with cache_time := now } }

/-- `MemoryCache._get` (cache.py lines 347-358).  A present record is a
non-empty dict (it is typed as carrying `cache_time`), so `if value:` is
true exactly when the key is present.  An expired record is deleted and the
raised `KeyError` is caught, yielding the default `{}` (here `none`); an
`AssertionError` from `is_expired` is not caught and propagates. -/
def get (now : Int) (st : MemoryCache) (k : String) :
    Except PyError (MemoryCache × Option Record) :=
  match dget st.cache k with
  | none => .ok (st, none)
  | some v => do
      let ex ← AbsCache.is_expired now v st.seconds
      if ex then .ok ({ st with cache := (ddel st.cache k).1 }, none)
      else .ok (st, some v)

/-- `MemoryCache._has` (cache.py lines 330-333): `bool(self._get(key))`;
it shares `_get`'s lazy-deletion side effect. -/
def has (now : Int) (st : MemoryCache) (k : String) :
    Except PyError (MemoryCache × Bool) :=
  (get now st k).map (fun p => (p.1, p.2.isSome))

/-- `MemoryCache._add` (cache.py lines 233-237): no-op when the key is held
and not expired unless `force`; otherwise `_set`. -/
def add (now : Int) (st : MemoryCache) (k : String) (v : Record) (force : Bool) :
    Except PyError MemoryCache := do
  let p ← has now st k
  if p.2 && !force then .ok p.1
  else .ok (set now p.1 k v)

/-- `MemoryCache._delete` (cache.py lines 254-262). -/
def delete (st : MemoryCache) (k : String) : MemoryCache × Nat :=
  ({ st with cache := (ddel st.cache k).1 }, (ddel st.cache k).2)

/-- `MemoryCache._clear` (cache.py lines 321-323). -/
def clear (st : MemoryCache) : MemoryCache :=
  { st with cache := [] }

/-- The loop body of `MemoryCache._prune` (cache.py lines 199-206): iterate
over a copy of the keys, fetch `self._cache[key]` (an uncaught `KeyError`
if absent), and delete the expired entries, counting deletions. -/
def pruneGo (now s : Int) : List String → Dict → Nat → Except PyError (Dict × Nat)
  | [], c, n => .ok (c, n)
  | k :: ks, c, n =>
      match dget c k with
      | none => .error .keyError
      | some v => do
          let ex ← AbsCache.is_expired now v s
          if ex then
            let r := ddel c k
            pruneGo now s ks r.1 (n + r.2)
          else pruneGo now s ks c n

/-- `MemoryCache._prune` (cache.py lines 199-206). -/
def prune (now : Int) (st : MemoryCache) : Except PyError (MemoryCache × Nat) :=
  (pruneGo now st.seconds (st.cache.map Prod.fst) st.cache 0).map
    (fun p => ({ st with cache := p.1 }, p.2))

/-- `MemoryCache.size` (cache.py lines 335-340): optionally prune, then
`len(self._cache)`. -/
def size (now : Int) (st : MemoryCache) (doPrune : Bool) :
    Except PyError (MemoryCache × Nat) :=
  if doPrune then
    (prune now st).map (fun p => (p.1, p.1.cache.length))
  else .ok (st, st.cache.length)

end MemoryCache

/-- Python call semantics for keyword arguments: a call is accepted only when
every keyword it passes is among the callee's parameter names; otherwise the
interpreter raises `TypeError` before the callee runs. -/
def keywordsAccepted (params kwargs : List String) : Bool :=
  kwargs.all (fun a => params.contains a)

namespace IOLib

/-- The parameter names of `IO.save_dict` (io.py lines 170-176):
`save_dict(cls, file, item, encoding="utf8")`. -/
def save_dict_params : List String := ["file", "item", "encoding"]

/-- The parameter names of `IO.save_list_dict` (io.py lines 209-215):
`save_list_dict(cls, file, items, encoding="utf8")`. -/
def save_list_dict_params : List String := ["file", "items", "encoding"]

/-- `IO.save_dict`'s effect once a call reaches it: the file now holds the
serialized dict, and the function reports `file.exists()`. -/
def save_dict (d : Dict) : Option Dict × Bool :=
  (some d, true)

end IOLib

namespace HybridCache

/-- The keywords passed at the `IO.save_dict(file_name=self._file,
file_data=self._cache)` call site (cache.py line 402). -/
def save_call_kwargs : List String := ["file_name", "file_data"]

/-- `HybridCache._load` (cache.py lines 386-390): replace `self._cache` with
the file content when `self._file.is_file()`, then report
`bool(self._cache)`. -/
def loadFile (fs : Option Dict) (st : MemoryCache) : MemoryCache × Bool :=
  match fs with
  | some d => ({ st with cache := d }, !d.isEmpty)
  | none => (st, !st.cache.isEmpty)

/-- `HybridCache.load` (cache.py lines 377-384). -/
def load (now : Int) (fs : Option Dict) (st : MemoryCache) (doPrune : Bool) :
    Except PyError (MemoryCache × Bool) :=
  let p := loadFile fs st
  if doPrune then
    (MemoryCache.prune now p.1).map (fun q => (q.1, !q.1.cache.isEmpty))
  else .ok p

/-- `HybridCache.__init__` (cache.py lines 366-375): store the fields, start
from an empty `_cache`, then call `self.load()` — with `load`'s default
`prune=True`.  Returns the constructed state. -/
def init (now : Int) (fs : Option Dict) (seconds : Int) :
    Except PyError MemoryCache :=
  (load now fs { seconds := seconds, cache := [] } true).map Prod.fst

/-- `HybridCache._save` (cache.py lines 399-406).  Non-empty cache: the call
`IO.save_dict(file_name=self._file, file_data=self._cache)` passes keywords
that `IO.save_dict` (parameters `file`, `item`, `encoding`) does not accept,
so Python raises `TypeError`; had the call been accepted, the file would be
written and `self._file.is_file()` returned.  Empty cache:
`self._file.unlink(missing_ok=True)` then return
`not self._file.is_file()`. -/
def saveFile (_fs : Option Dict) (st : MemoryCache) :
    Except PyError (MemoryCache × Option Dict × Bool) :=
  if !st.cache.isEmpty then
    if keywordsAccepted IOLib.save_dict_params save_call_kwargs then
      let r := IOLib.save_dict st.cache
      .ok (st, r.1, r.2)
    else .error .typeError
  else
    let fs2 : Option Dict := none
    .ok (st, fs2, fs2.isNone)

/-- `HybridCache.save` (cache.py lines 392-397): optionally `_prune`, then
`_save`. -/
def save (now : Int) (fs : Option Dict) (st : MemoryCache) (doPrune : Bool) :
    Except PyError (MemoryCache × Option Dict × Bool) := do
  let st1 ←
    if doPrune then (MemoryCache.prune now st).map Prod.fst
    else pure st
  saveFile fs st1

end HybridCache

/-- An element of a parsed JSON array: either a JSON object (a record) or a
value of any other JSON type. -/
inductive JVal where
  | obj (r : Record)
  | nonObj
deriving DecidableEq, Repr

/-- `isinstance(_, dict)` on a parsed JSON array element. -/
def JVal.isObj : JVal → Bool
  | .obj _ => true
  | .nonObj => false

def JVal.toObj : JVal → Option Record
  | .obj r => some r
  | .nonObj => none

/-- A parsed JSON document at top level: an array of elements, or any
non-array value. -/
inductive JTop where
  | arr (elems : List JVal)
  | nonArr
deriving DecidableEq, Repr

namespace IOLib

/-- `IO.load_list_dict` (io.py lines 115-127): return the parsed value only
when it is a list (`isinstance(result, list)`) that is non-empty (`if result`)
and all of whose elements are dicts; otherwise raise `ValueError`. -/
def load_list_dict (content : JTop) : Except PyError (List Record) :=
  match content with
  | .arr elems =>
      if !elems.isEmpty && elems.all JVal.isObj then
        .ok (elems.filterMap JVal.toObj)
      else .error .valueError
  | .nonArr => .error .valueError

end IOLib

namespace FileCache

/-- `FileCache.prune_list_dict` (cache.py lines 95-99): keep the items with
`item[key_cache] > ts_expire(seconds)`. -/
def prune_list_dict (now : Int) (data : List Record) (seconds : Int) :
    Except PyError (List Record) :=
  (AbsCache.ts_expire now seconds).map
    (fun expired => data.filter (fun item => decide (expired < item.cache_time)))

/-- `FileCache.load_list_dict` (cache.py lines 101-109): empty list when the
file is absent; otherwise `IO.load_list_dict` then `prune_list_dict`.  The
file state is `none` when the path is absent, `some content` when it holds
the parsed JSON document `content`. -/
def load_list_dict (now : Int) (fsFile : Option JTop) (seconds : Int) :
    Except PyError (List Record) :=
  match fsFile with
  | none => .ok []
  | some content => do
      let data ← IOLib.load_list_dict content
      prune_list_dict now data seconds

/-- The keywords passed at the `IO.save_list_dict(file_name=file,
file_data=cached)` call site (cache.py line 118). -/
def add_call_kwargs : List String := ["file_name", "file_data"]

/-- The list that `FileCache.add_list_dict` (cache.py lines 111-118)
assembles and hands to the file write: the surviving cached items followed by
the new item stamped with `item[key_cache] = now()`. -/
def add_list_dict_pending (now : Int) (fsFile : Option JTop) (item : Record)
    (seconds : Int) : Except PyError (List Record) := do
  let cached ← load_list_dict now fsFile seconds
  .ok (cached ++ [{ item with cache_time := now }])

/-- `FileCache.add_list_dict` (cache.py lines 111-119): load and prune the
cached list, stamp and append the item, then call
`IO.save_list_dict(file_name=file, file_data=cached)` — whose keywords
`IO.save_list_dict` (parameters `file`, `items`, `encoding`) does not accept,
so Python raises `TypeError`. -/
def add_list_dict (now : Int) (fsFile : Option JTop) (item : Record)
    (seconds : Int) : Except PyError Bool := do
  let _pending ← add_list_dict_pending now fsFile item seconds
  if keywordsAccepted IOLib.save_list_dict_params add_call_kwargs then
    .ok true
  else .error .typeError

end FileCache

/-! ### Lemmas about the dict operations -/

theorem except_bind_ok {α β : Type} (a : α) (f : α → Except PyError β) :
    (Except.ok a >>= f : Except PyError β) = f a := rfl

theorem except_bind_error {α β : Type} (e : PyError) (f : α → Except PyError β) :
    (Except.error e >>= f : Except PyError β) = Except.error e := rfl

theorem is_expired_ok (now : Int) (item : Record) (s : Int) (hs : 0 ≤ s) :
    AbsCache.is_expired now item s
      = .ok (decide (item.cache_time ≤ now - s)) := by
  simp [AbsCache.is_expired, AbsCache.ts_expire, hs, Except.map]

theorem dget_dset_self (m : Dict) (k : String) (v : Record) :
    dget (dset m k v) k = some v := by
  induction m with
  | nil => simp [dget, dset]
  | cons hd tl ih =>
      obtain ⟨k', v'⟩ := hd
      by_cases h : k' = k
      · simp [dget, dset, h]
      · simp [dget, dset, h, ih]

theorem dget_dset_ne (m : Dict) (k k' : String) (v : Record) (h : k' ≠ k) :
    dget (dset m k v) k' = dget m k' := by
  induction m with
  | nil => simp [dget, dset, h.symm]
  | cons hd tl ih =>
      obtain ⟨k₀, v₀⟩ := hd
      by_cases h0 : k₀ = k
      · subst h0
        simp [dget, dset, h.symm]
      · by_cases h1 : k₀ = k'
        · simp [dget, dset, h0, h1, h]
        · simp [dget, dset, h0, h1, ih]

theorem dget_ddel_ne (m : Dict) (k k' : String) (h : k' ≠ k) :
    dget (ddel m k).1 k' = dget m k' := by
  induction m with
  | nil => simp [dget, ddel]
  | cons hd tl ih =>
      obtain ⟨k₀, v₀⟩ := hd
      by_cases h0 : k₀ = k
      · subst h0
        simp [dget, ddel, h.symm]
      · by_cases h1 : k₀ = k'
        · simp [dget, ddel, h0, h1, h]
        · simp [dget, ddel, h0, h1, ih]

theorem ddel_length (m : Dict) (k : String) (v : Record)
    (h : dget m k = some v) : (ddel m k).1.length + 1 = m.length := by
  induction m with
  | nil => simp [dget] at h
  | cons hd tl ih =>
      obtain ⟨k₀, v₀⟩ := hd
      by_cases h0 : k₀ = k
      · simp [ddel, h0]
      · simp only [dget, if_neg h0] at h
        simp [ddel, h0, ih h]

theorem dget_eq_none_of_not_mem (m : Dict) (k : String)
    (h : k ∉ m.map Prod.fst) : dget m k = none := by
  induction m with
  | nil => simp [dget]
  | cons hd tl ih =>
      obtain ⟨k₀, v₀⟩ := hd
      simp only [List.map_cons, List.mem_cons, not_or] at h
      have h0 : k₀ ≠ k := fun e => h.1 e.symm
      simp [dget, h0, ih h.2]

theorem dget_ddel_self (m : Dict) (k : String)
    (hnd : (m.map Prod.fst).Nodup) : dget (ddel m k).1 k = none := by
  induction m with
  | nil => simp [dget, ddel]
  | cons hd tl ih =>
      obtain ⟨k₀, v₀⟩ := hd
      simp only [List.map_cons, List.nodup_cons] at hnd
      by_cases h0 : k₀ = k
      · subst h0
        simpa [ddel] using dget_eq_none_of_not_mem tl k₀ hnd.1
      · simp [ddel, dget, h0, ih hnd.2]

theorem dget_append_not_mem (pre rest : Dict) (k : String)
    (h : k ∉ pre.map Prod.fst) : dget (pre ++ rest) k = dget rest k := by
  induction pre with
  | nil => simp
  | cons hd tl ih =>
      obtain ⟨k₀, v₀⟩ := hd
      simp only [List.map_cons, List.mem_cons, not_or] at h
      have h0 : k₀ ≠ k := fun e => h.1 e.symm
      simp [dget, h0, ih h.2]

theorem ddel_append_not_mem (pre tl : Dict) (k : String) (v : Record)
    (h : k ∉ pre.map Prod.fst) :
    ddel (pre ++ (k, v) :: tl) k = (pre ++ tl, 1) := by
  induction pre with
  | nil => simp [ddel]
  | cons hd tl' ih =>
      obtain ⟨k₀, v₀⟩ := hd
      simp only [List.map_cons, List.mem_cons, not_or] at h
      have h0 : k₀ ≠ k := fun e => h.1 e.symm
      simp [ddel, h0, ih h.2]

/-- The predicate on backing-dict entries that `_prune` keeps: the record's
`cache_time` is strictly later than `ts_expire(seconds)`. -/
def entryAlive (now s : Int) (p : String × Record) : Bool :=
  !decide (p.2.cache_time ≤ now - s)

theorem pruneGo_append (now s : Int) (hs : 0 ≤ s) (rest : Dict) :
    ∀ (pre : Dict) (count : Nat),
    ((pre ++ rest).map Prod.fst).Nodup →
    MemoryCache.pruneGo now s (rest.map Prod.fst) (pre ++ rest) count
      = .ok (pre ++ rest.filter (entryAlive now s),
             count + (rest.filter (fun p => !entryAlive now s p)).length) := by
  induction rest with
  | nil => intro pre count _; simp [MemoryCache.pruneGo]
  | cons hd tl ih =>
      intro pre count hnd
      obtain ⟨k, v⟩ := hd
      have hnd2 : (pre.map Prod.fst).Nodup ∧ (k :: tl.map Prod.fst).Nodup ∧
          (pre.map Prod.fst).Disjoint (k :: tl.map Prod.fst) := by
        rw [← List.nodup_append]
        simpa using hnd
      obtain ⟨hp, hkt, hdisj⟩ := hnd2
      have hpre : k ∉ pre.map Prod.fst := fun hmem => hdisj hmem (by simp)
      have hget : dget (pre ++ (k, v) :: tl) k = some v := by
        rw [dget_append_not_mem pre _ k hpre]
        simp [dget]
      by_cases hex : v.cache_time ≤ now - s
      · have hdd := ddel_append_not_mem pre tl k v hpre
        have hnd' : ((pre ++ tl).map Prod.fst).Nodup := by
          rw [List.map_append, List.nodup_append]
          refine ⟨hp, hkt.of_cons, fun a ha hb => hdisj ha ?_⟩
          exact List.mem_cons_of_mem _ hb
        simp only [List.map_cons, MemoryCache.pruneGo, hget,
          is_expired_ok now v s hs, except_bind_ok, decide_eq_true hex,
          if_true, hdd]
        rw [ih pre (count + 1) hnd']
        simp [entryAlive, hex, Nat.add_comm, Nat.add_assoc, Nat.add_left_comm]
      · have hassoc : pre ++ (k, v) :: tl = (pre ++ [(k, v)]) ++ tl := by
          simp
        have hnd' : (((pre ++ [(k, v)]) ++ tl).map Prod.fst).Nodup := by
          rw [← hassoc]; exact hnd
        simp only [List.map_cons, MemoryCache.pruneGo, hget,
          is_expired_ok now v s hs, except_bind_ok, decide_eq_false hex,
          Bool.false_eq_true, if_false]
        have hih := ih (pre ++ [(k, v)]) count hnd'
        rw [← hassoc] at hih
        rw [hih]
        simp [entryAlive, hex]

theorem prune_eq (now : Int) (st : MemoryCache) (hs : 0 ≤ st.seconds)
    (hnd : (st.cache.map Prod.fst).Nodup) :
    MemoryCache.prune now st
      = .ok ({ st with cache := st.cache.filter (entryAlive now st.seconds) },
             (st.cache.filter (fun p => !entryAlive now st.seconds p)).length) := by
  have h := pruneGo_append now st.seconds hs st.cache [] 0
    (by simpa using hnd)
  simp only [List.nil_append] at h
  simp [MemoryCache.prune, h, Except.map]

theorem dget_filter_alive (now s : Int) (m : Dict) (k : String)
    (hnd : (m.map Prod.fst).Nodup) :
    dget (m.filter (entryAlive now s)) k
      = match dget m k with
        | some v => if v.cache_time ≤ now - s then none else some v
        | none => none := by
  induction m with
  | nil => simp [dget]
  | cons hd tl ih =>
      obtain ⟨k₀, v₀⟩ := hd
      simp only [List.map_cons, List.nodup_cons] at hnd
      by_cases h0 : k₀ = k
      · subst h0
        by_cases hq : v₀.cache_time ≤ now - s
        · have hnone : dget (tl.filter (entryAlive now s)) k₀ = none := by
            apply dget_eq_none_of_not_mem
            intro hmem
            have hsub : tl.filter (entryAlive now s) ⊆ tl :=
              fun a ha => (List.mem_filter.mp ha).1
            exact hnd.1 (List.map_subset _ hsub hmem)
          simp [dget, entryAlive, hq, hnone]
        · simp [dget, entryAlive, hq]
      · by_cases hq : v₀.cache_time ≤ now - s
        · simp [dget, entryAlive, hq, h0, ih hnd.2]
        · simp [dget, entryAlive, hq, h0, ih hnd.2]

theorem dget_dset_ddel (m : Dict) (k k' : String) (v : Record) :
    dget (dset (ddel m k).1 k v) k' = dget (dset m k v) k' := by
  by_cases h : k' = k
  · subst h
    rw [dget_dset_self, dget_dset_self]
  · rw [dget_dset_ne _ _ _ _ h, dget_dset_ne _ _ _ _ h, dget_ddel_ne _ _ _ h]

/-! ### Claim theorems -/

/-- C1: for every write-timestamp `t` and TTL `s ≥ 0`, `is_expired` on a
record whose `cache_time` is `t` returns true iff `t ≤ now - s`; the boundary
`t = now - s` counts as expired and `t = now - s + 1` does not; a negative
TTL is rejected by the assertion in `ts_expire`, and under `s ≥ 0` the
assertion never fires. -/
theorem spec_c1 (now s t : Int) (d : List (String × String)) (h : 0 ≤ s) :
    (AbsCache.is_expired now ⟨t, d⟩ s = .ok true ↔ t ≤ now - s)
    ∧ AbsCache.is_expired now ⟨now - s, d⟩ s = .ok true
    ∧ AbsCache.is_expired now ⟨now - s + 1, d⟩ s = .ok false
    ∧ AbsCache.ts_expire now s = .ok (now - s)
    ∧ (∀ s' : Int, s' < 0 → AbsCache.ts_expire now s' = .error .assertError) := by
  refine ⟨?_, ?_, ?_, ?_, ?_⟩
  · rw [is_expired_ok _ _ _ h]
    simp
  · rw [is_expired_ok _ _ _ h]
    simp
  · rw [is_expired_ok _ _ _ h]
    have hlt : ¬(now - s + 1 ≤ now - s) := by omega
    simp [hlt]
  · simp [AbsCache.ts_expire, h]
  · intro s' hs'
    have : ¬(0 ≤ s') := by omega
    simp [AbsCache.ts_expire, this]

theorem spec_c1_witness :
    AbsCache.is_expired 100 ⟨95, []⟩ 5 = .ok true := by
  simpa using (spec_c1 100 5 95 [] (by decide)).2.1

/-- C2: on a `MemoryCache`/`HybridCache` state, if key `k` holds a record
that is expired at call time, `get` returns the absent sentinel and
physically removes the entry (a subsequent `size(prune=False)` counts one
entry fewer); and `get` never returns a record that is expired at the moment
of the call. -/
theorem spec_c2 :
    (∀ (now : Int) (st : MemoryCache) (k : String) (v : Record),
      0 ≤ st.seconds → (st.cache.map Prod.fst).Nodup →
      dget st.cache k = some v → v.cache_time ≤ now - st.seconds →
      MemoryCache.get now st k
          = .ok ({ st with cache := (ddel st.cache k).1 }, none)
        ∧ dget (ddel st.cache k).1 k = none
        ∧ MemoryCache.size now { st with cache := (ddel st.cache k).1 } false
            = .ok ({ st with cache := (ddel st.cache k).1 },
                   st.cache.length - 1))
    ∧ (∀ (now : Int) (st : MemoryCache) (k : String) (st' : MemoryCache)
        (r : Record),
      0 ≤ st.seconds → MemoryCache.get now st k = .ok (st', some r) →
      now - st.seconds < r.cache_time) := by
  constructor
  · intro now st k v hs hnd hget hex
    refine ⟨?_, dget_ddel_self st.cache k hnd, ?_⟩
    · simp [MemoryCache.get, hget, is_expired_ok now v st.seconds hs,
        except_bind_ok, decide_eq_true hex]
    · have hlen := ddel_length st.cache k v hget
      have hl : (ddel st.cache k).1.length = st.cache.length - 1 := by omega
      simp [MemoryCache.size, hl]
  · intro now st k st' r hs hget'
    cases hv : dget st.cache k with
    | none => simp [MemoryCache.get, hv] at hget'
    | some v =>
        by_cases hex : v.cache_time ≤ now - st.seconds
        · simp [MemoryCache.get, hv, is_expired_ok now v st.seconds hs,
            except_bind_ok, decide_eq_true hex] at hget'
        · simp [MemoryCache.get, hv, is_expired_ok now v st.seconds hs,
            except_bind_ok, decide_eq_false hex] at hget'
          obtain ⟨h1, h2⟩ := hget'
          subst h2
          omega

theorem spec_c2_witness :
    MemoryCache.get 100 ⟨5, [("k", ⟨90, []⟩), ("j", ⟨100, []⟩)]⟩ "k"
      = .ok (⟨5, [("j", ⟨100, []⟩)]⟩, none) := by
  simpa using (spec_c2.1 100 ⟨5, [("k", ⟨90, []⟩), ("j", ⟨100, []⟩)]⟩ "k"
    ⟨90, []⟩ (by decide) (by decide) (by decide) (by decide)).1

/-- C8: force semantics of `add`.  If `k` holds an unexpired record,
`add(k, v2, force=False)` is a no-op; `add(k, v2, force=True)`, or any `add`
when `k` is absent or its record is expired, stores the same mapping as
`set(k, v2)` (which stamps `v2` with the current time). -/
theorem spec_c8 :
    (∀ (now : Int) (st : MemoryCache) (k : String) (v₂ : Record),
      0 ≤ st.seconds →
      ∀ v₁, dget st.cache k = some v₁ → now - st.seconds < v₁.cache_time →
      MemoryCache.add now st k v₂ false = .ok st)
    ∧ (∀ (now : Int) (st : MemoryCache) (k : String) (v₂ : Record)
        (force : Bool),
      0 ≤ st.seconds →
      (force = true ∨ dget st.cache k = none ∨
        (∃ v₁, dget st.cache k = some v₁ ∧
          v₁.cache_time ≤ now - st.seconds)) →
      ∃ st', MemoryCache.add now st k v₂ force = .ok st'
        ∧ ∀ k', dget st'.cache k' = dget (MemoryCache.set now st k v₂).cache k') := by
  constructor
  · intro now st k v₂ hs v₁ hget hlive
    have hex : ¬(v₁.cache_time ≤ now - st.seconds) := by omega
    simp [MemoryCache.add, MemoryCache.has, MemoryCache.get, hget,
      is_expired_ok now v₁ st.seconds hs, except_bind_ok,
      decide_eq_false hex, Except.map]
  · intro now st k v₂ force hs hcase
    cases hv : dget st.cache k with
    | none =>
        refine ⟨MemoryCache.set now st k v₂, ?_, fun k' => rfl⟩
        simp [MemoryCache.add, MemoryCache.has, MemoryCache.get, hv,
          Except.map, except_bind_ok]
    | some v =>
        by_cases hex : v.cache_time ≤ now - st.seconds
        · refine ⟨MemoryCache.set now
            { st with cache := (ddel st.cache k).1 } k v₂, ?_, ?_⟩
          · simp [MemoryCache.add, MemoryCache.has, MemoryCache.get, hv,
              is_expired_ok now v st.seconds hs, except_bind_ok,
              decide_eq_true hex, Except.map]
          · intro k'
            simpa [MemoryCache.set] using
              dget_dset_ddel st.cache k k' { v₂ with cache_time := now }
        · have hforce : force = true := by
            rcases hcase with h | h | ⟨v₁, hv₁, hex₁⟩
            · exact h
            · rw [hv] at h; cases h
            · rw [hv] at hv₁
              cases hv₁
              omega
          subst hforce
          refine ⟨MemoryCache.set now st k v₂, ?_, fun k' => rfl⟩
          simp [MemoryCache.add, MemoryCache.has, MemoryCache.get, hv,
            is_expired_ok now v st.seconds hs, except_bind_ok,
            decide_eq_false hex, Except.map]

theorem spec_c8_witness :
    MemoryCache.add 100 ⟨5, [("k", ⟨98, [("f", "v1")]⟩)]⟩ "k"
      ⟨0, [("f", "v2")]⟩ false = .ok ⟨5, [("k", ⟨98, [("f", "v1")]⟩)]⟩ := by
  simpa using spec_c8.1 100 ⟨5, [("k", ⟨98, [("f", "v1")]⟩)]⟩ "k"
    ⟨0, [("f", "v2")]⟩ (by decide) ⟨98, [("f", "v1")]⟩ (by decide) (by decide)

/-- C10 (frame property of reads): `get`/`has` on an absent key or on a
present unexpired record leave the backing mapping completely unchanged;
when the key is present but expired, the lazy delete removes only that
entry, leaving every other key's record unchanged. -/
theorem spec_c10 :
    (∀ (now : Int) (st : MemoryCache) (k : String),
      0 ≤ st.seconds → dget st.cache k = none →
      MemoryCache.get now st k = .ok (st, none)
        ∧ MemoryCache.has now st k = .ok (st, false))
    ∧ (∀ (now : Int) (st : MemoryCache) (k : String) (v : Record),
      0 ≤ st.seconds → dget st.cache k = some v →
      now - st.seconds < v.cache_time →
      MemoryCache.get now st k = .ok (st, some v)
        ∧ MemoryCache.has now st k = .ok (st, true))
    ∧ (∀ (now : Int) (st : MemoryCache) (k : String) (v : Record)
        (k' : String),
      0 ≤ st.seconds → dget st.cache k = some v →
      v.cache_time ≤ now - st.seconds → k' ≠ k →
      ∀ (st' : MemoryCache) (r : Option Record),
        MemoryCache.get now st k = .ok (st', r) →
        dget st'.cache k' = dget st.cache k') := by
  refine ⟨?_, ?_, ?_⟩
  · intro now st k _ hget
    constructor
    · simp [MemoryCache.get, hget]
    · simp [MemoryCache.has, MemoryCache.get, hget, Except.map]
  · intro now st k v hs hget hlive
    have hex : ¬(v.cache_time ≤ now - st.seconds) := by omega
    constructor
    · simp [MemoryCache.get, hget, is_expired_ok now v st.seconds hs,
        except_bind_ok, decide_eq_false hex]
    · simp [MemoryCache.has, MemoryCache.get, hget,
        is_expired_ok now v st.seconds hs, except_bind_ok,
        decide_eq_false hex, Except.map]
  · intro now st k v k' hs hget hex hne st' r hget'
    simp [MemoryCache.get, hget, is_expired_ok now v st.seconds hs,
      except_bind_ok, decide_eq_true hex] at hget'
    rw [← hget'.1]
    exact dget_ddel_ne st.cache k k' hne

theorem spec_c10_witness :
    MemoryCache.get 100 ⟨5, [("k", ⟨98, []⟩)]⟩ "k"
      = .ok (⟨5, [("k", ⟨98, []⟩)]⟩, some ⟨98, []⟩) := by
  simpa using (spec_c10.2.1 100 ⟨5, [("k", ⟨98, []⟩)]⟩ "k" ⟨98, []⟩
    (by decide) (by decide) (by decide)).1

/-- C3 counterexample: `HybridCache.__init__` calls `self.load()` with
`load`'s default `prune=True`, so a record already expired under the TTL
(here `cache_time = 0` with `now = 100`, TTL `5`) is swept at load time: the
in-memory mapping right after construction is empty, not the file's full
content, refuting the claim that no prune happens at load time. -/
theorem spec_c3_counterexample :
    HybridCache.init 100 (some [("k", ⟨0, []⟩)]) 5 = .ok ⟨5, []⟩
      ∧ ([] : Dict) ≠ [("k", (⟨0, []⟩ : Record))] := by
  constructor
  · rfl
  · decide

/-- C3 amended: construction from a path and TTL loads the file content (when
the file is present) and then prunes it (since `__init__` calls `load()`
whose `prune` parameter defaults to true): immediately after construction
the in-memory mapping holds exactly the file's records that are not yet
expired under the TTL. -/
theorem spec_c3_amended (now s : Int) (d : Dict) (hs : 0 ≤ s)
    (hnd : (d.map Prod.fst).Nodup) (k : String) :
    (HybridCache.init now (some d) s).map (fun st => dget st.cache k)
      = .ok (match dget d k with
             | some v => if v.cache_time ≤ now - s then none else some v
             | none => none) := by
  have hp := prune_eq now { seconds := s, cache := d } hs hnd
  simp only [HybridCache.init, HybridCache.load, HybridCache.loadFile,
    if_true, hp, Except.map]
  rw [dget_filter_alive now s d k hnd]

theorem spec_c3_amended_witness :
    (HybridCache.init 100 (some [("k", ⟨0, []⟩), ("j", ⟨100, []⟩)]) 5).map
      (fun st => dget st.cache "k") = .ok none := by
  simpa using spec_c3_amended 100 5 [("k", ⟨0, []⟩), ("j", ⟨100, []⟩)]
    (by decide) (by decide) "k"

/-- C4 counterexample: with a non-empty in-memory mapping and the backing
file absent, `load(prune=False)` leaves the in-memory state untouched and
returns true, refuting the claim that `load` replaces the in-memory state
entirely with the (here: absent, i.e. empty) file content and reports
whether the raw load found content. -/
theorem spec_c4_counterexample :
    HybridCache.load 100 none ⟨5, [("k", ⟨100, []⟩)]⟩ false
        = .ok (⟨5, [("k", ⟨100, []⟩)]⟩, true)
      ∧ (⟨5, [("k", ⟨100, []⟩)]⟩ : MemoryCache).cache ≠ [] := by
  constructor
  · rfl
  · decide

/-- C4 amended: `load(prune)` replaces the in-memory state with the file
content only when the file exists; when the file is absent the previous
in-memory state is retained.  With `prune=True` it then sweeps expired
entries from whatever is in memory and returns whether any record remains;
with `prune=False` it returns whether the in-memory store (after the load
attempt) is non-empty. -/
theorem spec_c4_amended :
    (∀ (now : Int) (st : MemoryCache) (d : Dict),
      HybridCache.load now (some d) st false
        = .ok ({ st with cache := d }, !d.isEmpty))
    ∧ (∀ (now : Int) (st : MemoryCache),
      HybridCache.load now none st false = .ok (st, !st.cache.isEmpty))
    ∧ (∀ (now : Int) (st : MemoryCache) (d : Dict),
      0 ≤ st.seconds → (d.map Prod.fst).Nodup →
      HybridCache.load now (some d) st true
        = .ok ({ st with cache := d.filter (entryAlive now st.seconds) },
               !(d.filter (entryAlive now st.seconds)).isEmpty))
    ∧ (∀ (now : Int) (st : MemoryCache),
      0 ≤ st.seconds → (st.cache.map Prod.fst).Nodup →
      HybridCache.load now none st true
        = .ok ({ st with cache := st.cache.filter (entryAlive now st.seconds) },
               !(st.cache.filter (entryAlive now st.seconds)).isEmpty)) := by
  refine ⟨?_, ?_, ?_, ?_⟩
  · intro now st d
    simp [HybridCache.load, HybridCache.loadFile]
  · intro now st
    simp [HybridCache.load, HybridCache.loadFile]
  · intro now st d hs hnd
    have hp := prune_eq now { st with cache := d } hs hnd
    simp only [HybridCache.load, HybridCache.loadFile, if_true, hp, Except.map]
  · intro now st hs hnd
    have hp := prune_eq now st hs hnd
    simp only [HybridCache.load, HybridCache.loadFile, if_true, hp, Except.map]

theorem spec_c4_amended_witness :
    HybridCache.load 100 (some [("k", ⟨0, []⟩), ("j", ⟨100, []⟩)])
        ⟨5, [("old", ⟨50, []⟩)]⟩ true
      = .ok (⟨5, [("j", ⟨100, []⟩)]⟩, true) := by
  simpa using spec_c4_amended.2.2.1 100 ⟨5, [("old", ⟨50, []⟩)]⟩
    [("k", ⟨0, []⟩), ("j", ⟨100, []⟩)] (by decide) (by decide)

/-- C5: evaluating `save` at concrete inputs.  With a non-empty store the
call `IO.save_dict(file_name=self._file, file_data=self._cache)`
(cache.py line 402) passes keywords that `IO.save_dict(cls, file, item,
encoding)` (io.py lines 170-176) does not accept, so Python raises
`TypeError` instead of serializing — the repo's own `test_hybridcache`
(`assert app.save()`) contradicts this.  With an empty store (populate,
`clear()`, `save()`) the file is unlinked and `save` returns true, as the
claim states. -/
theorem spec_c5_bug :
    HybridCache.save 100 none ⟨5, [("a", ⟨100, []⟩)]⟩ true = .error .typeError
      ∧ HybridCache.save 100 none
          (MemoryCache.clear ⟨5, [("a", ⟨100, []⟩)]⟩) true
          = .ok (⟨5, []⟩, none, true)
      ∧ keywordsAccepted IOLib.save_dict_params HybridCache.save_call_kwargs
          = false := by
  refine ⟨rfl, rfl, rfl⟩

/-- C6: evaluating the round-trip at a concrete input.  After `set`-ting one
record into a freshly constructed `HybridCache`, `save()` raises `TypeError`
(the keyword mismatch of cache.py line 402 against io.py line 171), so
nothing is ever persisted and the claimed save-then-reload round trip cannot
be executed. -/
theorem spec_c6_bug :
    (HybridCache.init 100 none 5).bind
        (fun st0 => HybridCache.save 100 none
          (MemoryCache.set 100 st0 "k" ⟨0, [("f", "x")]⟩) true)
      = .error .typeError := by
  rfl

/-- The top-level JSON content of a file, as a list of array elements
(empty for a non-array). -/
def JTop.elems : JTop → List JVal
  | .arr es => es
  | .nonArr => []

/-- Modelled from the spec's words: the file content "is a JSON array of
objects" (every element of the array is an object; no non-emptiness
requirement). -/
def specIsArrayOfObjects : JTop → Bool
  | .arr elems => elems.all JVal.isObj
  | .nonArr => false

/-- C7 counterexample: a file holding the empty JSON array `[]` is an array
all of whose elements are objects, yet `IO.load_list_dict`'s `if result`
check rejects it, so `FileCache.load_list_dict` raises `ValueError` —
refuting the claim that a JSON array whose elements are all objects never
triggers the error. -/
theorem spec_c7_counterexample :
    FileCache.load_list_dict 100 (some (JTop.arr [])) 5 = .error .valueError
      ∧ specIsArrayOfObjects (JTop.arr []) = true := by
  refine ⟨rfl, rfl⟩

/-- C7 amended: `load_list_dict` returns the empty list when the file is
absent; when the file exists it parses the content, prunes expired records
and returns exactly the survivors; and it raises a parse/shape error if and
only if the file exists and its content is not a *non-empty* JSON array of
objects (the empty array is also rejected). -/
theorem spec_c7_amended (now s : Int) (hs : 0 ≤ s) (content : JTop) :
    FileCache.load_list_dict now none s = .ok []
    ∧ FileCache.load_list_dict now (some content) s
        = (if specIsArrayOfObjects content = true ∧ content ≠ JTop.arr [] then
             .ok ((content.elems.filterMap JVal.toObj).filter
                    (fun r => decide (now - s < r.cache_time)))
           else .error .valueError) := by
  refine ⟨rfl, ?_⟩
  cases content with
  | nonArr => simp [FileCache.load_list_dict, IOLib.load_list_dict,
      specIsArrayOfObjects, except_bind_error]
  | arr elems =>
      by_cases hobj : elems.all JVal.isObj
      · by_cases hne : elems = []
        · subst hne
          simp [FileCache.load_list_dict, IOLib.load_list_dict,
            specIsArrayOfObjects, except_bind_error]
        · have hemp : elems.isEmpty = false := by
            cases elems with
            | nil => exact absurd rfl hne
            | cons a l => rfl
          simp [FileCache.load_list_dict, IOLib.load_list_dict,
            specIsArrayOfObjects, hobj, hemp, hne, except_bind_ok,
            FileCache.prune_list_dict, AbsCache.ts_expire, hs, Except.map,
            JTop.elems]
      · simp [FileCache.load_list_dict, IOLib.load_list_dict,
          specIsArrayOfObjects, hobj, except_bind_error]

theorem spec_c7_witness :
    FileCache.load_list_dict 100 (some (JTop.arr [JVal.obj ⟨100, []⟩])) 5
      = .ok [⟨100, []⟩] := by
  simpa using (spec_c7_amended 100 5 (by decide)
    (JTop.arr [JVal.obj ⟨100, []⟩])).2

/-- C9 (timestamp-stamping invariant): every record inserted or overwritten
by `set`/`add` carries `cache_time = now()` at the moment of the operation,
overwriting whatever `cache_time` the caller supplied; and the record that
`FileCache.add_list_dict` appends to the list it writes to the file is
stamped with `cache_time = now()` likewise. -/
theorem spec_c9 :
    (∀ (now : Int) (st : MemoryCache) (k : String) (v : Record),
      dget (MemoryCache.set now st k v).cache k
        = some { v with cache_time := now })
    ∧ (∀ (now : Int) (st : MemoryCache) (k : String) (v : Record)
        (force : Bool) (st' : MemoryCache),
      0 ≤ st.seconds → MemoryCache.add now st k v force = .ok st' →
      st' = st ∨ dget st'.cache k = some { v with cache_time := now })
    ∧ (∀ (now : Int) (fsFile : Option JTop) (item : Record) (s : Int)
        (l : List Record),
      FileCache.add_list_dict_pending now fsFile item s = .ok l →
      l.getLast? = some { item with cache_time := now }) := by
  refine ⟨?_, ?_, ?_⟩
  · intro now st k v
    exact dget_dset_self st.cache k { v with cache_time := now }
  · intro now st k v force st' hs hadd
    cases hv : dget st.cache k with
    | none =>
        simp [MemoryCache.add, MemoryCache.has, MemoryCache.get, hv,
          Except.map, except_bind_ok] at hadd
        right
        rw [← hadd]
        exact dget_dset_self st.cache k { v with cache_time := now }
    | some v₁ =>
        by_cases hex : v₁.cache_time ≤ now - st.seconds
        · simp [MemoryCache.add, MemoryCache.has, MemoryCache.get, hv,
            is_expired_ok now v₁ st.seconds hs, except_bind_ok,
            decide_eq_true hex, Except.map] at hadd
          right
          rw [← hadd]
          exact dget_dset_self _ k { v with cache_time := now }
        · cases force with
          | false =>
              simp [MemoryCache.add, MemoryCache.has, MemoryCache.get, hv,
                is_expired_ok now v₁ st.seconds hs, except_bind_ok,
                decide_eq_false hex, Except.map] at hadd
              left
              exact hadd.symm
          | true =>
              simp [MemoryCache.add, MemoryCache.has, MemoryCache.get, hv,
                is_expired_ok now v₁ st.seconds hs, except_bind_ok,
                decide_eq_false hex, Except.map] at hadd
              right
              rw [← hadd]
              exact dget_dset_self st.cache k { v with cache_time := now }
  · intro now fsFile item s l hpend
    cases hload : FileCache.load_list_dict now fsFile s with
    | error e =>
        simp [FileCache.add_list_dict_pending, hload, except_bind_ok] at hpend
        cases hpend
    | ok cached =>
        simp [FileCache.add_list_dict_pending, hload, except_bind_ok] at hpend
        rw [← hpend, List.getLast?_append_cons]
        rfl

theorem spec_c9_witness :
    (⟨5, [("k", ⟨100, [("f", "x")]⟩)]⟩ : MemoryCache) = ⟨5, ([] : Dict)⟩
      ∨ dget (⟨5, [("k", ⟨100, [("f", "x")]⟩)]⟩ : MemoryCache).cache "k"
          = some ⟨100, [("f", "x")]⟩ :=
  spec_c9.2.1 100 ⟨5, ([] : Dict)⟩ "k" ⟨7, [("f", "x")]⟩ false
    ⟨5, [("k", ⟨100, [("f", "x")]⟩)]⟩ (by decide) (by rfl)

end PyLibCache
